import Mathlib

/-!
Verification development for the leveldb write-ahead-log writer
(`db/log_writer.cc`, `leveldb::log::Writer`).

The writer fragments a logical record into physical chunks, each with a
7-byte header (masked CRC32C, little-endian length, type tag), filling
fixed 32768-byte blocks and zero-padding a block tail that cannot hold a
header.  The external sink (`WritableFile`) is modelled by an oracle
assigning a `Status` to every `Append`/`Flush` call; the writer records a
trace of sink calls and a ghost log of emitted chunks so that theorems can
speak about what was written and in which order.
-/

set_option maxHeartbeats 1000000

namespace LevelDBLog

/-- Modelled from the spec: `db/log_format.h` is not under `src/`; the spec
fixes the block size at 32768 bytes. -/
def kBlockSize : Nat := 32768

/-- Modelled from the spec: header size is 7 bytes
(4-byte masked crc, 2-byte length, 1-byte type). -/
def kHeaderSize : Nat := 7

/-- Modelled from the spec: the closed record-type enumeration
`Zero=0 (reserved), Full=1, First=2, Middle=3, Last=4` from
`db/log_format.h` (not under `src/`). -/
inductive RecordType where
  | zero
  | full
  | first
  | middle
  | last
deriving DecidableEq, Repr

/-- Numeric tag of a record type, as stored in header byte 6. -/
def RecordType.tag : RecordType → Nat
  | .zero => 0
  | .full => 1
  | .first => 2
  | .middle => 3
  | .last => 4

/-- Modelled from the spec: `kMaxRecordType = kLastType` is a bound on the
enumeration (`db/log_format.h`, not under `src/`), not a sixth tag. -/
def kMaxRecordType : Nat := 4

/-- Result of a sink operation or of `AddRecord`: `leveldb::Status` is
either OK or carries an error (only IOError is surfaced here); modelled
with an abstract numeric error code. -/
inductive Status where
  | ok
  | ioError (code : Nat)
deriving DecidableEq, Repr

/-- `Status::ok()`. -/
def Status.isOk : Status → Bool
  | .ok => true
  | .ioError _ => false

theorem Status.isOk_iff (s : Status) : s.isOk = true ↔ s = Status.ok := by
  cases s <;> simp [Status.isOk]

/-- Modelled from the spec: the borrowed sink (`WritableFile`, only its
interface `Append : bytes → Status`, `Flush : unit → Status` is visible to
this component).  The oracle fixes the status returned by the n-th Append
call and the n-th Flush call, which is fully general for the status
sequences a sink can produce. -/
structure Env where
  appendRes : Nat → Status
  flushRes : Nat → Status

/-- The all-successful sink oracle. -/
def envOk : Env := ⟨fun _ => Status.ok, fun _ => Status.ok⟩

/-- One observable sink call, with the bytes handed to `Append` and the
status the sink returned. -/
inductive Event where
  | append (bytes : List Nat) (res : Status)
  | flush (res : Status)
deriving DecidableEq, Repr

/-- Sink-side state: how many Append/Flush calls have been issued, and the
trace of calls made so far. -/
structure FileState where
  nAppend : Nat
  nFlush : Nat
  events : List Event
deriving DecidableEq, Repr

/-- `dest_->Append(slice)`: consult the oracle for this call's status,
record the call, and return the status to the caller. -/
def FileState.doAppend (env : Env) (f : FileState) (bytes : List Nat) :
    Status × FileState :=
  let r := env.appendRes f.nAppend
  (r, { f with nAppend := f.nAppend + 1, events := f.events ++ [Event.append bytes r] })

/-- `dest_->Flush()`. -/
def FileState.doFlush (env : Env) (f : FileState) : Status × FileState :=
  let r := env.flushRes f.nFlush
  (r, { f with nFlush := f.nFlush + 1, events := f.events ++ [Event.flush r] })

/-- Ghost log entry: one `EmitPhysicalRecord` call with its chunk type,
payload length, and the status that call returned. -/
structure EmitRec where
  rt : RecordType
  len : Nat
  st : Status
deriving DecidableEq, Repr

/-- `leveldb::log::Writer`: the sink handle plus the `block_offset_`
cursor.  `assertOk` is a ghost flag conjoining, at each point where the
C++ code asserts, the asserted proposition; `emitted` is a ghost log of
`EmitPhysicalRecord` calls. -/
structure Writer where
  file : FileState
  blockOffset : Nat
  assertOk : Bool
  emitted : List EmitRec

/-- `Writer::Writer(dest)`: fresh writer, `block_offset_ = 0`. -/
def Writer.fresh (f : FileState) : Writer :=
  { file := f, blockOffset := 0, assertOk := true, emitted := [] }

/-- `Writer::Writer(dest, dest_length)`: resuming writer,
`block_offset_ = dest_length % kBlockSize`. -/
def Writer.resume (f : FileState) (destLength : Nat) : Writer :=
  { file := f, blockOffset := destLength % kBlockSize, assertOk := true, emitted := [] }

/-! ### CRC32C, masking, and header encoding

`util/crc32c.{h,cc}` and `util/coding.h` are repository code that is not
under `src/`; they are modelled from the spec (spec §4.1, §4.2 step 1-3,
§6): CRC32C is a pure checksum with `Value`/`Extend`, masking is a
reversible 32-bit rotation plus an additive constant, and the header
stores the masked crc and the length little-endian. -/

/-- Modelled from the spec: one bit-step of the reflected CRC32C
(Castagnoli) polynomial division. -/
def crcRound (x : Nat) : Nat :=
  if x % 2 = 1 then (x / 2) ^^^ 0x82f63b78 else x / 2

/-- Modelled from the spec: fold one payload byte into the running crc
state (8 polynomial steps after xoring the byte in). -/
def crcByte (c b : Nat) : Nat :=
  crcRound^[8] (c ^^^ (b % 256))

/-- Modelled from the spec: `crc32c::Extend(seed, data)` — continue a crc
whose value so far is `seed` over the bytes `data`. -/
def crc32cExtend (seed : Nat) (data : List Nat) : Nat :=
  (data.foldl crcByte (seed ^^^ 0xffffffff)) ^^^ 0xffffffff

/-- Modelled from the spec: `crc32c::Value(data) = Extend(0, data)`. -/
def crc32cValue (data : List Nat) : Nat :=
  crc32cExtend 0 data

/-- Modelled from the spec: the additive constant of the crc storage
masking. -/
def kMaskDelta : Nat := 0xa282ead8

/-- Modelled from the spec: `crc32c::Mask` — rotate the 32-bit crc right
by 15 bits and add `kMaskDelta` (32-bit wrapping). -/
def crcMask (c : Nat) : Nat :=
  ((c % 32768) * 131072 + c / 32768 + kMaskDelta) % 4294967296

/-- Modelled from the spec: `crc32c::Unmask`, the reader-side inverse of
`crcMask` — subtract `kMaskDelta` (32-bit wrapping) and rotate left by
15 bits. -/
def crcUnmask (m : Nat) : Nat :=
  (((m + 4294967296 - kMaskDelta) % 4294967296 % 131072) * 32768 +
    (m + 4294967296 - kMaskDelta) % 4294967296 / 131072) % 4294967296

/-- `InitTypeCrc`: `type_crc_[i] = crc32c::Value(&t, 1)` for every tag
`i ≤ kMaxRecordType`.  Both constructors fill the per-writer table with
exactly these values, so the table is represented by this constant. -/
def typeCrcTable : List Nat :=
  (List.range (kMaxRecordType + 1)).map (fun i => crc32cValue [i])

/-- Modelled from the spec: `EncodeFixed32` (`util/coding.h`, not under
`src/`) — the four little-endian bytes of a 32-bit value. -/
def encodeFixed32 (v : Nat) : List Nat :=
  [v % 256, v / 256 % 256, v / 65536 % 256, v / 16777216 % 256]

/-- Modelled from the spec: the reader-side little-endian decode of a
4-byte field (inverse of `encodeFixed32`). -/
def decodeFixed32 (bs : List Nat) : Nat :=
  bs.getD 0 0 + 256 * bs.getD 1 0 + 65536 * bs.getD 2 0 + 16777216 * bs.getD 3 0

/-- The 7-byte header built by `Writer::EmitPhysicalRecord` (lines 99-112):
bytes 0-3 little-endian masked `crc32c::Extend(type_crc_[t], payload)`,
bytes 4-5 little-endian payload length (low byte first, each a `char`
truncation), byte 6 the type tag. -/
def headerBytes (t : RecordType) (frag : List Nat) : List Nat :=
  encodeFixed32 (crcMask (crc32cExtend (typeCrcTable.getD t.tag 0) frag)) ++
    [frag.length % 256, frag.length / 256 % 256, t.tag]

/-! ### EmitPhysicalRecord and AddRecord -/

/-- `Writer::EmitPhysicalRecord(t, ptr, length)` (lines 94-124): assert the
contract, build the header, append header then (if the header append
succeeded) payload then (if that succeeded) flush, advance
`block_offset_` unconditionally, and return the first failing status. -/
def emitPhysicalRecord (env : Env) (w : Writer) (t : RecordType)
    (frag : List Nat) : Status × Writer :=
  let length := frag.length
  let w0 : Writer := { w with
    assertOk := w.assertOk && decide (length ≤ 0xffff)
      && decide (w.blockOffset + kHeaderSize + length ≤ kBlockSize) }
  let buf := headerBytes t frag
  let r1 := w0.file.doAppend env buf
  let r2 :=
    if r1.1.isOk = true then
      let r2a := r1.2.doAppend env frag
      if r2a.1.isOk = true then r2a.2.doFlush env else r2a
    else r1
  (r2.1, { w0 with
    file := r2.2,
    blockOffset := w0.blockOffset + kHeaderSize + length,
    emitted := w0.emitted ++ [⟨t, length, r2.1⟩] })

/-- Lines 46-60 of `Writer::AddRecord`: `leftover = kBlockSize -
block_offset_` (as C++ `int`); assert it is nonnegative; if it cannot hold
a header, append `leftover` zero bytes of trailer padding (the returned
status is discarded) and reset the cursor to a fresh block. -/
def padToNewBlock (env : Env) (w : Writer) : Writer :=
  let leftover : Int := (kBlockSize : Int) - (w.blockOffset : Int)
  let w1 : Writer := { w with assertOk := w.assertOk && decide (0 ≤ leftover) }
  if leftover < (kHeaderSize : Int) then
    let w2 : Writer :=
      if 0 < leftover then
        { w1 with file := (w1.file.doAppend env (List.replicate leftover.toNat 0)).2 }
      else w1
    { w2 with blockOffset := 0 }
  else w1

/-- One iteration of the `do … while` loop body of `Writer::AddRecord`
(lines 46-87): switch block if needed, assert the headroom invariant,
size the fragment as `min left avail`, pick the chunk type from
`begin`/`end`, emit, and advance the data pointer.  Returns the emit
status, the updated writer, and the remaining record bytes. -/
def addStep (env : Env) (w : Writer) (rest : List Nat) (beg : Bool) :
    Status × Writer × List Nat :=
  let w1 := padToNewBlock env w
  let w2 : Writer := { w1 with
    assertOk := w1.assertOk
      && decide (0 ≤ (kBlockSize : Int) - (w1.blockOffset : Int) - (kHeaderSize : Int)) }
  let avail := kBlockSize - w2.blockOffset - kHeaderSize
  let fragmentLength := min rest.length avail
  let t : RecordType :=
    if beg = true ∧ rest.length = fragmentLength then RecordType.full
    else if beg = true then RecordType.first
    else if rest.length = fragmentLength then RecordType.last
    else RecordType.middle
  let r := emitPhysicalRecord env w2 t (rest.take fragmentLength)
  (r.1, r.2, rest.drop fragmentLength)

/-! ### Pure shadows of the per-iteration geometry

These restate, as functions of the entry `block_offset_` and the number of
record bytes left, where the cursor lands and how the fragment is sized;
`step_char` proves they agree with `addStep`. -/

/-- Cursor after the block-switch check: reset to 0 exactly when fewer
than `kHeaderSize` bytes remain in the block. -/
def padOffset (bo : Nat) : Nat :=
  if (kBlockSize : Int) - (bo : Int) < (kHeaderSize : Int) then 0 else bo

/-- Payload bytes available in the current block after the header. -/
def stepAvail (bo : Nat) : Nat :=
  kBlockSize - padOffset bo - kHeaderSize

/-- Fragment length: `min (bytes left) (bytes available)`. -/
def stepLen (bo n : Nat) : Nat :=
  min n (stepAvail bo)

/-- Chunk type chosen for the iteration. -/
def stepT (bo n : Nat) (beg : Bool) : RecordType :=
  if beg = true ∧ n = stepLen bo n then RecordType.full
  else if beg = true then RecordType.first
  else if n = stepLen bo n then RecordType.last
  else RecordType.middle

theorem pad_blockOffset (env : Env) (w : Writer) :
    (padToNewBlock env w).blockOffset = padOffset w.blockOffset := by
  simp only [padToNewBlock, padOffset]
  split_ifs <;> rfl

theorem pad_emitted (env : Env) (w : Writer) :
    (padToNewBlock env w).emitted = w.emitted := by
  simp only [padToNewBlock]
  split_ifs <;> rfl

theorem emit_blockOffset (env : Env) (w : Writer) (t : RecordType) (frag : List Nat) :
    (emitPhysicalRecord env w t frag).2.blockOffset
      = w.blockOffset + kHeaderSize + frag.length := rfl

theorem emit_emitted (env : Env) (w : Writer) (t : RecordType) (frag : List Nat) :
    (emitPhysicalRecord env w t frag).2.emitted
      = w.emitted ++ [⟨t, frag.length, (emitPhysicalRecord env w t frag).1⟩] := rfl

theorem emit_assertOk (env : Env) (w : Writer) (t : RecordType) (frag : List Nat) :
    (emitPhysicalRecord env w t frag).2.assertOk
      = (w.assertOk && decide (frag.length ≤ 0xffff)
          && decide (w.blockOffset + kHeaderSize + frag.length ≤ kBlockSize)) := rfl

theorem pad_assertOk (env : Env) (w : Writer) :
    (padToNewBlock env w).assertOk
      = (w.assertOk && decide (0 ≤ (kBlockSize : Int) - (w.blockOffset : Int))) := by
  simp only [padToNewBlock]
  split_ifs <;> rfl

/-- `addStep` agrees with the pure shadows: where the cursor lands, what
remains of the record, and which chunk is logged. -/
theorem step_char (env : Env) (w : Writer) (rest : List Nat) (beg : Bool) :
    (addStep env w rest beg).2.1.blockOffset
        = padOffset w.blockOffset + kHeaderSize + stepLen w.blockOffset rest.length ∧
      (addStep env w rest beg).2.2 = rest.drop (stepLen w.blockOffset rest.length) ∧
      (addStep env w rest beg).2.1.emitted
        = w.emitted ++ [⟨stepT w.blockOffset rest.length beg,
            stepLen w.blockOffset rest.length, (addStep env w rest beg).1⟩] := by
  refine ⟨?_, ?_, ?_⟩
  · simp only [addStep, emit_blockOffset, pad_blockOffset, stepLen, stepAvail,
      List.length_take]
    omega
  · simp only [addStep, pad_blockOffset, stepLen, stepAvail]
  · simp only [addStep, emit_emitted, pad_blockOffset, pad_emitted, stepT, stepLen,
      stepAvail]
    rw [List.length_take]
    have hmin : rest.length ⊓ (kBlockSize - padOffset w.blockOffset - kHeaderSize)
          ⊓ rest.length
        = rest.length ⊓ (kBlockSize - padOffset w.blockOffset - kHeaderSize) := by
      omega
    rw [hmin]

/-- The cursor never passes the end of a block. -/
theorem step_blockOffset_le (env : Env) (w : Writer) (rest : List Nat) (beg : Bool) :
    (addStep env w rest beg).2.1.blockOffset ≤ kBlockSize := by
  rw [(step_char env w rest beg).1]
  simp only [padOffset, stepLen, stepAvail, kBlockSize, kHeaderSize]
  split_ifs <;> omega

/-- If the entry cursor is within a block, every assertion evaluated
during the iteration holds, and the ghost flag is preserved. -/
theorem step_assertOk (env : Env) (w : Writer) (rest : List Nat) (beg : Bool)
    (h : w.blockOffset ≤ kBlockSize) :
    (addStep env w rest beg).2.1.assertOk = w.assertOk := by
  have hpad : padOffset w.blockOffset = 0 ∨
      (padOffset w.blockOffset = w.blockOffset ∧ w.blockOffset + kHeaderSize ≤ kBlockSize) := by
    simp only [padOffset, kBlockSize, kHeaderSize] at *
    split_ifs <;> omega
  simp only [addStep, emit_assertOk, pad_assertOk, pad_blockOffset]
  have h1 : decide (0 ≤ (kBlockSize : Int) - (w.blockOffset : Int)) = true := by
    simp only [kBlockSize] at *
    simp
    omega
  have h2 : decide (0 ≤ (kBlockSize : Int) - (padOffset w.blockOffset : Int)
      - (kHeaderSize : Int)) = true := by
    simp only [kBlockSize, kHeaderSize] at *
    simp
    omega
  have h3 : decide ((rest.take (min rest.length
        (kBlockSize - padOffset w.blockOffset - kHeaderSize))).length ≤ 0xffff) = true := by
    simp only [List.length_take, kBlockSize, kHeaderSize] at *
    simp
    omega
  have h4 : decide (padOffset w.blockOffset + kHeaderSize
      + (rest.take (min rest.length
          (kBlockSize - padOffset w.blockOffset - kHeaderSize))).length ≤ kBlockSize) = true := by
    simp only [List.length_take, kBlockSize, kHeaderSize] at *
    simp
    omega
  rw [h1, h2, h3, h4]
  simp

/-- Under the all-ok sink every emit, hence every iteration, returns OK. -/
theorem step_ok (w : Writer) (rest : List Nat) (beg : Bool) :
    (addStep envOk w rest beg).1 = Status.ok := by
  simp [addStep, emitPhysicalRecord, FileState.doAppend, FileState.doFlush, envOk,
    Status.isOk]

/-- The sink trace only ever grows (appends are never retracted). -/
theorem step_events (env : Env) (w : Writer) (rest : List Nat) (beg : Bool) :
    ∃ tl, (addStep env w rest beg).2.1.file.events = w.file.events ++ tl := by
  have hpad : ∃ tl, (padToNewBlock env w).file.events = w.file.events ++ tl := by
    simp only [padToNewBlock, FileState.doAppend]
    split_ifs
    · exact ⟨_, rfl⟩
    · exact ⟨[], by simp⟩
    · exact ⟨[], by simp⟩
  obtain ⟨tl1, h1⟩ := hpad
  have hemit : ∀ (w' : Writer) (t : RecordType) (frag : List Nat),
      ∃ tl, (emitPhysicalRecord env w' t frag).2.file.events = w'.file.events ++ tl := by
    intro w' t frag
    simp only [emitPhysicalRecord, FileState.doAppend, FileState.doFlush]
    split_ifs
    · exact ⟨[Event.append (headerBytes t frag) (env.appendRes w'.file.nAppend),
        Event.append frag (env.appendRes (w'.file.nAppend + 1)),
        Event.flush (env.flushRes w'.file.nFlush)], by simp⟩
    · exact ⟨[Event.append (headerBytes t frag) (env.appendRes w'.file.nAppend),
        Event.append frag (env.appendRes (w'.file.nAppend + 1))], by simp⟩
    · exact ⟨[Event.append (headerBytes t frag) (env.appendRes w'.file.nAppend)], by simp⟩
  obtain ⟨tl2, h2⟩ := hemit
    ({ padToNewBlock env w with
        assertOk := (padToNewBlock env w).assertOk
          && decide (0 ≤ (kBlockSize : Int) - ((padToNewBlock env w).blockOffset : Int)
              - (kHeaderSize : Int)) })
    (if beg = true ∧ rest.length = min rest.length
          (kBlockSize - (padToNewBlock env w).blockOffset - kHeaderSize) then RecordType.full
      else if beg = true then RecordType.first
      else if rest.length = min rest.length
          (kBlockSize - (padToNewBlock env w).blockOffset - kHeaderSize) then RecordType.last
      else RecordType.middle)
    (rest.take (min rest.length (kBlockSize - (padToNewBlock env w).blockOffset - kHeaderSize)))
  refine ⟨tl1 ++ tl2, ?_⟩
  simp only [addStep]
  rw [h2]
  simp [h1]

/-- Each iteration that continues the loop strictly decreases the
measure `(kBlockSize+1) * left + (kBlockSize - block_offset_)`: either the
fragment was nonempty (fewer bytes left), or the block was exactly full
save for a bare header, which the zero-length fragment consumes. -/
theorem step_measure (env : Env) (w : Writer) (rest : List Nat) (beg : Bool)
    (h2 : (addStep env w rest beg).2.2 ≠ []) :
    (kBlockSize + 1) * (addStep env w rest beg).2.2.length
        + (kBlockSize - (addStep env w rest beg).2.1.blockOffset)
      < (kBlockSize + 1) * rest.length + (kBlockSize - w.blockOffset) := by
  have hc := step_char env w rest beg
  rw [hc.2.1] at h2
  have hne : 0 < rest.length - stepLen w.blockOffset rest.length := by
    have := List.length_pos.mpr h2
    simpa using this
  rw [hc.1, hc.2.1]
  simp only [List.length_drop]
  simp only [stepLen, stepAvail, padOffset, kBlockSize, kHeaderSize] at *
  split_ifs at * <;> omega

/-- The `do … while (s.ok() && left > 0)` loop of `Writer::AddRecord`
(lines 43-88): run the body, then continue while the emit succeeded and
record bytes remain. -/
def addRecordLoop (env : Env) (w : Writer) (rest : List Nat) (beg : Bool) :
    Status × Writer :=
  let r := addStep env w rest beg
  if h : r.1.isOk = true ∧ r.2.2 ≠ [] then
    addRecordLoop env r.2.1 r.2.2 false
  else
    (r.1, r.2.1)
termination_by (kBlockSize + 1) * rest.length + (kBlockSize - w.blockOffset)
decreasing_by exact step_measure env w rest beg h.2

/-- `Writer::AddRecord(slice)` (lines 36-90): fragment the record and emit
it, starting with `begin = true`. -/
def addRecord (env : Env) (w : Writer) (slice : List Nat) : Status × Writer :=
  addRecordLoop env w slice true

theorem loop_continue {env : Env} {w : Writer} {rest : List Nat} {beg : Bool}
    (h : (addStep env w rest beg).1.isOk = true ∧ (addStep env w rest beg).2.2 ≠ []) :
    addRecordLoop env w rest beg
      = addRecordLoop env (addStep env w rest beg).2.1 (addStep env w rest beg).2.2 false := by
  rw [addRecordLoop]
  rw [dif_pos h]

theorem loop_stop {env : Env} {w : Writer} {rest : List Nat} {beg : Bool}
    (h : ¬((addStep env w rest beg).1.isOk = true ∧ (addStep env w rest beg).2.2 ≠ [])) :
    addRecordLoop env w rest beg
      = ((addStep env w rest beg).1, (addStep env w rest beg).2.1) := by
  rw [addRecordLoop]
  rw [dif_neg h]

theorem stepT_ne_zero (bo n : Nat) (beg : Bool) : stepT bo n beg ≠ RecordType.zero := by
  simp only [stepT]
  split_ifs <;> simp

theorem stepT_end (bo n : Nat) (h : n = stepLen bo n) :
    stepT bo n true = RecordType.full ∧ stepT bo n false = RecordType.last := by
  constructor
  · simp only [stepT]
    rw [if_pos ⟨trivial, h⟩]
  · simp only [stepT]
    rw [if_neg (by simp), if_neg (by simp), if_pos h]

theorem stepT_mid (bo n : Nat) (h : n ≠ stepLen bo n) :
    stepT bo n true = RecordType.first ∧ stepT bo n false = RecordType.middle := by
  constructor
  · simp only [stepT]
    rw [if_neg (fun hh => h hh.2), if_pos trivial]
  · simp only [stepT]
    rw [if_neg (by simp), if_neg (by simp), if_neg h]

/-- Master specification of the fragmentation loop, by strong induction on
the termination measure: the loop appends a nonempty batch of chunks in
which every chunk but the last returned OK and the last one's status is
the loop's result; no `Zero` chunk is ever logged; on success the types
follow the `Full` / `First·Middle*·Last` grammar; the sink trace only
grows; the cursor ends within the block; and, from a within-block entry
cursor, no assertion fires. -/
theorem loop_spec (env : Env) :
    ∀ (N : Nat) (w : Writer) (rest : List Nat) (beg : Bool),
    (kBlockSize + 1) * rest.length + (kBlockSize - w.blockOffset) < N →
    ∃ c : List EmitRec,
      (addRecordLoop env w rest beg).2.emitted = w.emitted ++ c ∧
      c ≠ [] ∧
      (∀ x ∈ c.dropLast, x.st = Status.ok) ∧
      (∃ tp ln, c.getLast? = some ⟨tp, ln, (addRecordLoop env w rest beg).1⟩) ∧
      (∀ x ∈ c, x.rt ≠ RecordType.zero) ∧
      ((addRecordLoop env w rest beg).1.isOk = true →
        (beg = true →
          c.map EmitRec.rt = [RecordType.full] ∨
            ∃ k, c.map EmitRec.rt
              = RecordType.first :: (List.replicate k RecordType.middle
                  ++ [RecordType.last])) ∧
        (beg = false →
          ∃ k, c.map EmitRec.rt
            = List.replicate k RecordType.middle ++ [RecordType.last])) ∧
      (∃ tl, (addRecordLoop env w rest beg).2.file.events = w.file.events ++ tl) ∧
      (addRecordLoop env w rest beg).2.blockOffset ≤ kBlockSize ∧
      (w.assertOk = true → w.blockOffset ≤ kBlockSize →
        (addRecordLoop env w rest beg).2.assertOk = true) := by
  intro N
  induction N with
  | zero => intro w rest beg hm; omega
  | succ n ih =>
    intro w rest beg hm
    by_cases hc : ((addStep env w rest beg).1.isOk = true ∧ (addStep env w rest beg).2.2 ≠ [])
    · -- the loop continues with the remaining bytes
      have hmeas := step_measure env w rest beg hc.2
      obtain ⟨c2, hem2, hne2, hdrop2, hlast2, hzero2, hshape2, hev2, hbo2, has2⟩ :=
        ih (addStep env w rest beg).2.1 (addStep env w rest beg).2.2 false (by omega)
      have hch := step_char env w rest beg
      have hstep_ok : (addStep env w rest beg).1 = Status.ok := (Status.isOk_iff _).mp hc.1
      have hmidlen : rest.length ≠ stepLen w.blockOffset rest.length := by
        intro h
        apply hc.2
        rw [hch.2.1, List.drop_eq_nil_iff]
        omega
      obtain ⟨y, ys, hyys⟩ := List.exists_cons_of_ne_nil hne2
      refine ⟨⟨stepT w.blockOffset rest.length beg,
          stepLen w.blockOffset rest.length, Status.ok⟩ :: c2, ?_, ?_, ?_, ?_, ?_, ?_, ?_, ?_, ?_⟩
      · rw [loop_continue hc, hem2, hch.2.2, hstep_ok]
        simp
      · simp
      · intro x hx
        rw [hyys, List.dropLast_cons₂] at hx
        rcases List.mem_cons.mp hx with h | h
        · rw [h]
        · exact hdrop2 x (by rw [hyys]; exact h)
      · obtain ⟨tp, ln, hl⟩ := hlast2
        refine ⟨tp, ln, ?_⟩
        rw [loop_continue hc, hyys, List.getLast?_cons_cons, ← hyys, hl]
      · intro x hx
        rcases List.mem_cons.mp hx with h | h
        · rw [h]; exact stepT_ne_zero _ _ _
        · exact hzero2 x h
      · rw [loop_continue hc]
        intro hok
        obtain ⟨k, hk⟩ := (hshape2 hok).2 rfl
        constructor
        · intro hbeg
          right
          refine ⟨k, ?_⟩
          simp only [List.map_cons, hk, hbeg]
          rw [(stepT_mid _ _ hmidlen).1]
        · intro hbeg
          refine ⟨k + 1, ?_⟩
          simp only [List.map_cons, hk, hbeg]
          rw [(stepT_mid _ _ hmidlen).2, List.replicate_succ]
          simp
      · obtain ⟨tl1, h1⟩ := step_events env w rest beg
        obtain ⟨tl2, h2⟩ := hev2
        refine ⟨tl1 ++ tl2, ?_⟩
        rw [loop_continue hc, h2, h1]
        simp
      · rw [loop_continue hc]; exact hbo2
      · intro h1 h2
        rw [loop_continue hc]
        exact has2 (by rw [step_assertOk env w rest beg h2]; exact h1)
          (step_blockOffset_le env w rest beg)
    · -- the loop stops after this iteration
      have hch := step_char env w rest beg
      refine ⟨[⟨stepT w.blockOffset rest.length beg, stepLen w.blockOffset rest.length,
          (addStep env w rest beg).1⟩], ?_, ?_, ?_, ?_, ?_, ?_, ?_, ?_, ?_⟩
      · rw [loop_stop hc]; exact hch.2.2
      · simp
      · simp
      · rw [loop_stop hc]; exact ⟨_, _, rfl⟩
      · intro x hx
        rw [List.mem_singleton.mp hx]
        exact stepT_ne_zero _ _ _
      · rw [loop_stop hc]
        intro hok
        have hrest : (addStep env w rest beg).2.2 = [] := by
          by_contra hne
          exact hc ⟨hok, hne⟩
        have hendlen : rest.length = stepLen w.blockOffset rest.length := by
          rw [hch.2.1] at hrest
          have hle := List.drop_eq_nil_iff.mp hrest
          have : stepLen w.blockOffset rest.length ≤ rest.length := Nat.min_le_left _ _
          omega
        constructor
        · intro hbeg
          left
          simp [hbeg, (stepT_end _ _ hendlen).1]
        · intro hbeg
          refine ⟨0, ?_⟩
          simp [hbeg, (stepT_end _ _ hendlen).2]
      · rw [loop_stop hc]; exact step_events env w rest beg
      · rw [loop_stop hc]; exact step_blockOffset_le env w rest beg
      · intro h1 h2
        rw [loop_stop hc]
        rw [step_assertOk env w rest beg h2]
        exact h1

/-! ### The crc state stays a 32-bit value, and masking round-trips -/

theorem crcRound_lt {x : Nat} (h : x < 2 ^ 32) : crcRound x < 2 ^ 32 := by
  unfold crcRound
  split_ifs
  · exact Nat.xor_lt_two_pow (by omega) (by norm_num)
  · omega

theorem crcByte_lt {c : Nat} (b : Nat) (h : c < 2 ^ 32) : crcByte c b < 2 ^ 32 := by
  unfold crcByte
  have hx : c ^^^ (b % 256) < 2 ^ 32 :=
    Nat.xor_lt_two_pow h (by have := Nat.mod_lt b (y := 256) (by norm_num); omega)
  generalize c ^^^ (b % 256) = y at hx
  clear h
  induction 8 generalizing y with
  | zero => simpa using hx
  | succ k ihk =>
    rw [Function.iterate_succ_apply]
    exact ihk _ (crcRound_lt hx)

theorem crcFoldl_lt {acc : Nat} (data : List Nat) (h : acc < 2 ^ 32) :
    data.foldl crcByte acc < 2 ^ 32 := by
  induction data generalizing acc with
  | nil => simpa using h
  | cons b bs ihb =>
    rw [List.foldl_cons]
    exact ihb (crcByte_lt b h)

theorem crc32cExtend_lt {seed : Nat} (data : List Nat) (h : seed < 2 ^ 32) :
    crc32cExtend seed data < 2 ^ 32 := by
  unfold crc32cExtend
  exact Nat.xor_lt_two_pow (crcFoldl_lt data (Nat.xor_lt_two_pow h (by norm_num)))
    (by norm_num)

theorem typeCrc_lt (t : RecordType) : typeCrcTable.getD t.tag 0 < 2 ^ 32 := by
  cases t <;> decide

/-- Masking is reversed exactly by unmasking on 32-bit values. -/
theorem crcUnmask_crcMask {c : Nat} (h : c < 2 ^ 32) : crcUnmask (crcMask c) = c := by
  have h32 : c < 4294967296 := by norm_num at h; exact h
  have h2 : (crcMask c + 4294967296 - 2726488792) % 4294967296
      = c % 32768 * 131072 + c / 32768 := by
    simp only [crcMask, kMaskDelta]
    omega
  have h3 : (c % 32768 * 131072 + c / 32768) % 131072 = c / 32768 := by omega
  have h4 : (c % 32768 * 131072 + c / 32768) / 131072 = c % 32768 := by omega
  simp only [crcUnmask, kMaskDelta]
  rw [h2, h3, h4]
  omega

/-- Little-endian 32-bit decode inverts the encode on 32-bit values. -/
theorem decode_encodeFixed32 {v : Nat} (h : v < 2 ^ 32) :
    decodeFixed32 (encodeFixed32 v) = v := by
  simp only [encodeFixed32, decodeFixed32, List.getD_cons_zero, List.getD_cons_succ]
  omega

/-- Under the all-ok sink the loop, and hence `AddRecord`, returns OK. -/
theorem loop_ok_envOk : ∀ (N : Nat) (w : Writer) (rest : List Nat) (beg : Bool),
    (kBlockSize + 1) * rest.length + (kBlockSize - w.blockOffset) < N →
    (addRecordLoop envOk w rest beg).1 = Status.ok := by
  intro N
  induction N with
  | zero => intro w rest beg hm; omega
  | succ n ih =>
    intro w rest beg hm
    by_cases hc : ((addStep envOk w rest beg).1.isOk = true
        ∧ (addStep envOk w rest beg).2.2 ≠ [])
    · rw [loop_continue hc]
      exact ih _ _ _ (by have := step_measure envOk w rest beg hc.2; omega)
    · rw [loop_stop hc]
      exact step_ok w rest beg

theorem addRecord_envOk_ok (w : Writer) (slice : List Nat) :
    (addRecord envOk w slice).1 = Status.ok := by
  simp only [addRecord]
  exact loop_ok_envOk ((kBlockSize + 1) * slice.length + kBlockSize + 1) w slice true
    (by omega)

/-- Summary of one loop iteration at concrete geometry: where the cursor
lands, which chunk is logged, and what remains. -/
theorem step_summary (env : Env) (w : Writer) (rest : List Nat) (beg : Bool)
    (bo n L : Nat) (tp : RecordType)
    (hbo : w.blockOffset = bo) (hn : rest.length = n)
    (hL : stepLen bo n = L) (ht : stepT bo n beg = tp)
    (hok : (addStep env w rest beg).1 = Status.ok) :
    (addStep env w rest beg).2.1.blockOffset = padOffset bo + kHeaderSize + L ∧
      (addStep env w rest beg).2.1.emitted = w.emitted ++ [⟨tp, L, Status.ok⟩] ∧
      (addStep env w rest beg).2.2.length = n - L ∧
      (addStep env w rest beg).2.2 = rest.drop L := by
  have h := step_char env w rest beg
  rw [hbo, hn] at h
  refine ⟨by rw [h.1, hL], ?_, ?_, by rw [h.2.1, hL]⟩
  · rw [h.2.2, hL, ht, hok]
  · rw [h.2.1, hL, List.length_drop, hn]

/-! ### The claims -/

/-- C2: for every record type tag and every payload of length at most
65535, the 7-byte header built by `EmitPhysicalRecord` round-trips: bytes
4-5 decode little-endian to the payload length, byte 6 is the type tag,
and unmasking the little-endian u32 of bytes 0-3 gives exactly
`Extend(type_crc_[t], payload)`. -/
theorem claimC2 (t : RecordType) (payload : List Nat) (h : payload.length ≤ 65535) :
    (headerBytes t payload).getD 4 0 + 256 * (headerBytes t payload).getD 5 0
        = payload.length ∧
      (headerBytes t payload).getD 6 0 = t.tag ∧
      crcUnmask (decodeFixed32 ((headerBytes t payload).take 4))
        = crc32cExtend (typeCrcTable.getD t.tag 0) payload := by
  have hc : crc32cExtend (typeCrcTable.getD t.tag 0) payload < 2 ^ 32 :=
    crc32cExtend_lt _ (typeCrc_lt t)
  have hm : crcMask (crc32cExtend (typeCrcTable.getD t.tag 0) payload) < 2 ^ 32 := by
    simp only [crcMask]
    have := Nat.mod_lt ((crc32cExtend (typeCrcTable.getD t.tag 0) payload % 32768) * 131072
      + crc32cExtend (typeCrcTable.getD t.tag 0) payload / 32768 + kMaskDelta)
      (y := 4294967296) (by norm_num)
    omega
  refine ⟨?_, ?_, ?_⟩
  · simp only [headerBytes, encodeFixed32, List.cons_append, List.nil_append,
      List.getD_cons_succ, List.getD_cons_zero]
    omega
  · simp only [headerBytes, encodeFixed32, List.cons_append, List.nil_append,
      List.getD_cons_succ, List.getD_cons_zero]
  · have ht4 : (headerBytes t payload).take 4
        = encodeFixed32 (crcMask (crc32cExtend (typeCrcTable.getD t.tag 0) payload)) := by
      simp [headerBytes, encodeFixed32]
    rw [ht4, decode_encodeFixed32 hm, crcUnmask_crcMask hc]

/-- C2 witness: the round-trip at type `Full` and payload `[1, 2, 3]`. -/
theorem claimC2_witness :
    ([1, 2, 3] : List Nat).length ≤ 65535 ∧
      ((headerBytes RecordType.full [1, 2, 3]).getD 4 0
          + 256 * (headerBytes RecordType.full [1, 2, 3]).getD 5 0
          = ([1, 2, 3] : List Nat).length ∧
        (headerBytes RecordType.full [1, 2, 3]).getD 6 0 = RecordType.full.tag ∧
        crcUnmask (decodeFixed32 ((headerBytes RecordType.full [1, 2, 3]).take 4))
          = crc32cExtend (typeCrcTable.getD RecordType.full.tag 0) [1, 2, 3]) :=
  ⟨by decide, claimC2 RecordType.full [1, 2, 3] (by decide)⟩

/-- C3: a successful `AddRecord` emits exactly `Full` (one chunk) or
`First, Middle×(N-2), Last` (N ≥ 2 chunks), and never logs the reserved
`Zero` tag (so no tag outside the four payload-bearing ones, `Zero` and
the `kMaxRecordType` bound included, is emitted). -/
theorem claimC3 (env : Env) (w : Writer) (slice : List Nat)
    (h : (addRecord env w slice).1.isOk = true) :
    ∃ c, (addRecord env w slice).2.emitted = w.emitted ++ c ∧
      (∀ x ∈ c, x.rt ≠ RecordType.zero) ∧
      (c.map EmitRec.rt = [RecordType.full] ∨
        ∃ k, c.map EmitRec.rt
          = RecordType.first :: (List.replicate k RecordType.middle
              ++ [RecordType.last])) := by
  simp only [addRecord] at *
  obtain ⟨c, h1, _, _, _, h5, h6, _, _, _⟩ :=
    loop_spec env ((kBlockSize + 1) * slice.length + kBlockSize + 1) w slice true (by omega)
  exact ⟨c, h1, h5, (h6 h).1 rfl⟩

/-- C3 witness at a small record under the all-ok sink. -/
theorem claimC3_witness :
    (addRecord envOk (Writer.fresh ⟨0, 0, []⟩) [1, 2, 3]).1.isOk = true ∧
      ∃ c, (addRecord envOk (Writer.fresh ⟨0, 0, []⟩) [1, 2, 3]).2.emitted
          = (Writer.fresh ⟨0, 0, []⟩).emitted ++ c ∧
        (∀ x ∈ c, x.rt ≠ RecordType.zero) ∧
        (c.map EmitRec.rt = [RecordType.full] ∨
          ∃ k, c.map EmitRec.rt
            = RecordType.first :: (List.replicate k RecordType.middle
                ++ [RecordType.last])) :=
  ⟨by rw [addRecord_envOk_ok]; rfl,
    claimC3 envOk (Writer.fresh ⟨0, 0, []⟩) [1, 2, 3] (by rw [addRecord_envOk_ok]; rfl)⟩

/-- C4 (amended): after every `AddRecord` the cursor satisfies
`0 ≤ block_offset ≤ kBlockSize`; the bound is reached (see the
counterexample), so `< kBlockSize` does not hold between calls. -/
theorem claimC4_amended (env : Env) (w : Writer) (slice : List Nat) :
    (addRecord env w slice).2.blockOffset ≤ kBlockSize := by
  simp only [addRecord]
  obtain ⟨_, _, _, _, _, _, _, _, h8, _⟩ :=
    loop_spec env ((kBlockSize + 1) * slice.length + kBlockSize + 1) w slice true (by omega)
  exact h8

/-- C4 counterexample: a fresh writer given a 32761-byte record (which
exactly fills one block: 7 + 32761 = 32768) ends the call with
`block_offset = kBlockSize`, violating `block_offset < kBlockSize`. -/
theorem claimC4_counterexample :
    ¬((addRecord envOk (Writer.fresh ⟨0, 0, []⟩) (List.replicate 32761 0)).2.blockOffset
        < kBlockSize) := by
  have hsum := step_summary envOk (Writer.fresh ⟨0, 0, []⟩) (List.replicate 32761 0) true
    0 32761 32761 RecordType.full rfl (by rw [List.length_replicate]) (by decide) (by decide)
    (step_ok _ _ _)
  have hstop : ¬((addStep envOk (Writer.fresh ⟨0, 0, []⟩) (List.replicate 32761 0) true).1.isOk
      = true ∧ (addStep envOk (Writer.fresh ⟨0, 0, []⟩) (List.replicate 32761 0) true).2.2
        ≠ []) := by
    intro hcc
    apply hcc.2
    rw [hsum.2.2.2, List.drop_eq_nil_iff, List.length_replicate]
  simp only [addRecord]
  rw [loop_stop hstop]
  have hbo : (addStep envOk (Writer.fresh ⟨0, 0, []⟩) (List.replicate 32761 0) true).2.1.blockOffset
      = 32768 := by
    rw [hsum.1]
    decide
  show ¬((addStep envOk (Writer.fresh ⟨0, 0, []⟩) (List.replicate 32761 0) true).2.1.blockOffset
      < kBlockSize)
  rw [hbo]
  decide

/-- C6: `AddRecord` on the empty record emits exactly one chunk, of type
`Full` with payload length 0, from any writer state and any sink. -/
theorem claimC6 (env : Env) (w : Writer) :
    ((addRecord env w []).2.emitted).map (fun x => (x.rt, x.len))
      = w.emitted.map (fun x => (x.rt, x.len)) ++ [(RecordType.full, 0)] := by
  have hch := step_char env w [] true
  have hstop : ¬((addStep env w [] true).1.isOk = true
      ∧ (addStep env w [] true).2.2 ≠ []) := by
    intro hcc
    apply hcc.2
    rw [hch.2.1]
    simp
  have hT : stepT w.blockOffset (0 : Nat) true = RecordType.full :=
    (stepT_end w.blockOffset 0 (by simp [stepLen])).1
  have hL : stepLen w.blockOffset (0 : Nat) = 0 := by simp [stepLen]
  simp only [addRecord]
  rw [loop_stop hstop]
  show ((addStep env w [] true).2.1.emitted).map (fun x => (x.rt, x.len)) = _
  rw [hch.2.2]
  simp only [List.length_nil, hT, hL, List.map_append, List.map_cons, List.map_nil]

/-- C7: `AddRecord` stops at the first failing emit — every logged chunk
but the last returned OK, the last chunk's status is exactly the status
`AddRecord` returns — and the sink trace is append-only (chunks already
emitted stay in the sink; no rollback, no retry). -/
theorem claimC7 (env : Env) (w : Writer) (slice : List Nat) :
    (∃ tl, (addRecord env w slice).2.file.events = w.file.events ++ tl) ∧
      ∃ c, (addRecord env w slice).2.emitted = w.emitted ++ c ∧ c ≠ [] ∧
        (∀ x ∈ c.dropLast, x.st = Status.ok) ∧
        ∃ tp ln, c.getLast? = some ⟨tp, ln, (addRecord env w slice).1⟩ := by
  simp only [addRecord]
  obtain ⟨c, h1, h2, h3, h4, _, _, h7, _, _⟩ :=
    loop_spec env ((kBlockSize + 1) * slice.length + kBlockSize + 1) w slice true (by omega)
  exact ⟨h7, c, h1, h2, h3, h4⟩

/-- C8: starting within a block and with no assertion failed so far, no
assertion evaluated during `AddRecord` fires — in particular every
`EmitPhysicalRecord` call satisfies `length ≤ 0xffff` and
`block_offset + kHeaderSize + length ≤ kBlockSize`. -/
theorem claimC8 (env : Env) (w : Writer) (slice : List Nat)
    (h1 : w.assertOk = true) (h2 : w.blockOffset ≤ kBlockSize) :
    (addRecord env w slice).2.assertOk = true := by
  simp only [addRecord]
  obtain ⟨_, _, _, _, _, _, _, _, _, h9⟩ :=
    loop_spec env ((kBlockSize + 1) * slice.length + kBlockSize + 1) w slice true (by omega)
  exact h9 h1 h2

/-- C8 witness on a fresh writer and a small record. -/
theorem claimC8_witness :
    (Writer.fresh ⟨0, 0, []⟩).assertOk = true ∧
      (Writer.fresh ⟨0, 0, []⟩).blockOffset ≤ kBlockSize ∧
      (addRecord envOk (Writer.fresh ⟨0, 0, []⟩) [5]).2.assertOk = true :=
  ⟨rfl, by decide, claimC8 envOk (Writer.fresh ⟨0, 0, []⟩) [5] rfl (by decide)⟩

/-- C10: in `EmitPhysicalRecord` the payload is appended only if the
header append succeeded, the flush is requested only if both appends
succeeded, the first failing status is returned with no later sink call of
that chunk attempted, and `block_offset` advances by
`kHeaderSize + length` in every case. -/
theorem claimC10 (env : Env) (w : Writer) (t : RecordType) (frag : List Nat) :
    (emitPhysicalRecord env w t frag).2.blockOffset
        = w.blockOffset + kHeaderSize + frag.length ∧
      (∀ e, env.appendRes w.file.nAppend = Status.ioError e →
        (emitPhysicalRecord env w t frag).1 = Status.ioError e ∧
        (emitPhysicalRecord env w t frag).2.file.events
          = w.file.events ++ [Event.append (headerBytes t frag) (Status.ioError e)] ∧
        (emitPhysicalRecord env w t frag).2.file.nFlush = w.file.nFlush) ∧
      (env.appendRes w.file.nAppend = Status.ok →
        ∀ e, env.appendRes (w.file.nAppend + 1) = Status.ioError e →
        (emitPhysicalRecord env w t frag).1 = Status.ioError e ∧
        (emitPhysicalRecord env w t frag).2.file.events
          = w.file.events ++ [Event.append (headerBytes t frag) Status.ok,
              Event.append frag (Status.ioError e)] ∧
        (emitPhysicalRecord env w t frag).2.file.nFlush = w.file.nFlush) ∧
      (env.appendRes w.file.nAppend = Status.ok →
        env.appendRes (w.file.nAppend + 1) = Status.ok →
        (emitPhysicalRecord env w t frag).1 = env.flushRes w.file.nFlush ∧
        (emitPhysicalRecord env w t frag).2.file.events
          = w.file.events ++ [Event.append (headerBytes t frag) Status.ok,
              Event.append frag Status.ok,
              Event.flush (env.flushRes w.file.nFlush)]) := by
  refine ⟨emit_blockOffset env w t frag, ?_, ?_, ?_⟩
  · intro e he
    simp [emitPhysicalRecord, FileState.doAppend, FileState.doFlush, he, Status.isOk]
  · intro h1 e h2
    simp [emitPhysicalRecord, FileState.doAppend, FileState.doFlush, h1, h2, Status.isOk]
  · intro h1 h2
    simp [emitPhysicalRecord, FileState.doAppend, FileState.doFlush, h1, h2, Status.isOk]

/-- Sink oracle whose second append call (the payload append of the only
chunk) fails with error code 2. -/
def envSecondFail : Env :=
  ⟨fun n => if n = 1 then Status.ioError 2 else Status.ok, fun _ => Status.ok⟩

/-- C10 witness: with a sink whose payload append fails, the emit returns
that error and requests no flush. -/
theorem claimC10_witness :
    envSecondFail.appendRes ((Writer.fresh ⟨0, 0, []⟩).file.nAppend) = Status.ok ∧
      envSecondFail.appendRes ((Writer.fresh ⟨0, 0, []⟩).file.nAppend + 1)
        = Status.ioError 2 ∧
      (emitPhysicalRecord envSecondFail (Writer.fresh ⟨0, 0, []⟩) RecordType.full [9]).1
        = Status.ioError 2 ∧
      (emitPhysicalRecord envSecondFail (Writer.fresh ⟨0, 0, []⟩) RecordType.full [9]).2.file.nFlush
        = (Writer.fresh ⟨0, 0, []⟩).file.nFlush := by
  refine ⟨rfl, rfl, ?_, ?_⟩
  · exact ((claimC10 envSecondFail (Writer.fresh ⟨0, 0, []⟩) RecordType.full [9]).2.2.1
      rfl 2 rfl).1
  · exact ((claimC10 envSecondFail (Writer.fresh ⟨0, 0, []⟩) RecordType.full [9]).2.2.1
      rfl 2 rfl).2.2

/-- C1: a fresh writer handed a 70000-byte record emits exactly
`First/32761`, `Middle/32761`, `Last/4478` and ends with
`block_offset = 4485`; and in general every iteration logs a chunk whose
payload length is `min (record bytes remaining) (block bytes available
after the 7-byte header)`. -/
theorem claimC1 :
    (∀ (f : FileState) (slice : List Nat), slice.length = 70000 →
      (addRecord envOk (Writer.fresh f) slice).1 = Status.ok ∧
      ((addRecord envOk (Writer.fresh f) slice).2.emitted).map (fun x => (x.rt, x.len))
        = [(RecordType.first, 32761), (RecordType.middle, 32761),
            (RecordType.last, 4478)] ∧
      (addRecord envOk (Writer.fresh f) slice).2.blockOffset = 4485) ∧
    (∀ (env : Env) (w : Writer) (rest : List Nat) (beg : Bool),
      ∃ tp s, (addStep env w rest beg).2.1.emitted
        = w.emitted ++ [⟨tp, min rest.length
            (kBlockSize - (padToNewBlock env w).blockOffset - kHeaderSize), s⟩]) := by
  constructor
  · intro f slice hlen
    -- iteration 1: First, 32761 bytes, cursor 0 → 32768
    have h1 := step_summary envOk (Writer.fresh f) slice true 0 70000 32761
      RecordType.first rfl hlen (by decide) (by decide) (step_ok _ _ _)
    have hc1 : (addStep envOk (Writer.fresh f) slice true).1.isOk = true ∧
        (addStep envOk (Writer.fresh f) slice true).2.2 ≠ [] := by
      refine ⟨by rw [step_ok]; rfl, ?_⟩
      intro hnil
      rw [hnil] at h1
      simp at h1
    have hw1bo : (addStep envOk (Writer.fresh f) slice true).2.1.blockOffset = 32768 := by
      rw [h1.1]; decide
    have hw1em : (addStep envOk (Writer.fresh f) slice true).2.1.emitted
        = [⟨RecordType.first, 32761, Status.ok⟩] := by
      rw [h1.2.1]; rfl
    have hr1len : (addStep envOk (Writer.fresh f) slice true).2.2.length = 37239 := by
      rw [h1.2.2.1]
    -- iteration 2: Middle, 32761 bytes, cursor resets 32768 → 0 → 32768
    have h2 := step_summary envOk (addStep envOk (Writer.fresh f) slice true).2.1
      (addStep envOk (Writer.fresh f) slice true).2.2 false 32768 37239 32761
      RecordType.middle hw1bo hr1len (by decide) (by decide) (step_ok _ _ _)
    have hc2 : (addStep envOk (addStep envOk (Writer.fresh f) slice true).2.1
          (addStep envOk (Writer.fresh f) slice true).2.2 false).1.isOk = true ∧
        (addStep envOk (addStep envOk (Writer.fresh f) slice true).2.1
          (addStep envOk (Writer.fresh f) slice true).2.2 false).2.2 ≠ [] := by
      refine ⟨by rw [step_ok]; rfl, ?_⟩
      intro hnil
      rw [hnil] at h2
      simp at h2
    have hw2bo : (addStep envOk (addStep envOk (Writer.fresh f) slice true).2.1
        (addStep envOk (Writer.fresh f) slice true).2.2 false).2.1.blockOffset = 32768 := by
      rw [h2.1]; decide
    have hw2em : (addStep envOk (addStep envOk (Writer.fresh f) slice true).2.1
        (addStep envOk (Writer.fresh f) slice true).2.2 false).2.1.emitted
        = [⟨RecordType.first, 32761, Status.ok⟩, ⟨RecordType.middle, 32761, Status.ok⟩] := by
      rw [h2.2.1, hw1em]; rfl
    have hr2len : (addStep envOk (addStep envOk (Writer.fresh f) slice true).2.1
        (addStep envOk (Writer.fresh f) slice true).2.2 false).2.2.length = 4478 := by
      rw [h2.2.2.1]
    -- iteration 3: Last, 4478 bytes, cursor resets 32768 → 0 → 4485, loop ends
    have h3 := step_summary envOk
      (addStep envOk (addStep envOk (Writer.fresh f) slice true).2.1
        (addStep envOk (Writer.fresh f) slice true).2.2 false).2.1
      (addStep envOk (addStep envOk (Writer.fresh f) slice true).2.1
        (addStep envOk (Writer.fresh f) slice true).2.2 false).2.2 false
      32768 4478 4478 RecordType.last hw2bo hr2len (by decide) (by decide) (step_ok _ _ _)
    have hstop3 : ¬((addStep envOk
          (addStep envOk (addStep envOk (Writer.fresh f) slice true).2.1
            (addStep envOk (Writer.fresh f) slice true).2.2 false).2.1
          (addStep envOk (addStep envOk (Writer.fresh f) slice true).2.1
            (addStep envOk (Writer.fresh f) slice true).2.2 false).2.2 false).1.isOk = true ∧
        (addStep envOk
          (addStep envOk (addStep envOk (Writer.fresh f) slice true).2.1
            (addStep envOk (Writer.fresh f) slice true).2.2 false).2.1
          (addStep envOk (addStep envOk (Writer.fresh f) slice true).2.1
            (addStep envOk (Writer.fresh f) slice true).2.2 false).2.2 false).2.2 ≠ []) := by
      intro hcc
      apply hcc.2
      apply List.length_eq_zero.mp
      rw [h3.2.2.1]
    have hfinal : addRecord envOk (Writer.fresh f) slice
        = ((addStep envOk
              (addStep envOk (addStep envOk (Writer.fresh f) slice true).2.1
                (addStep envOk (Writer.fresh f) slice true).2.2 false).2.1
              (addStep envOk (addStep envOk (Writer.fresh f) slice true).2.1
                (addStep envOk (Writer.fresh f) slice true).2.2 false).2.2 false).1,
            (addStep envOk
              (addStep envOk (addStep envOk (Writer.fresh f) slice true).2.1
                (addStep envOk (Writer.fresh f) slice true).2.2 false).2.1
              (addStep envOk (addStep envOk (Writer.fresh f) slice true).2.1
                (addStep envOk (Writer.fresh f) slice true).2.2 false).2.2 false).2.1) := by
      simp only [addRecord]
      rw [loop_continue hc1, loop_continue hc2, loop_stop hstop3]
    refine ⟨addRecord_envOk_ok _ _, ?_, ?_⟩
    · rw [hfinal]
      show ((addStep envOk _ _ false).2.1.emitted).map _ = _
      rw [h3.2.1, hw2em]
      rfl
    · rw [hfinal]
      show (addStep envOk _ _ false).2.1.blockOffset = 4485
      rw [h3.1]
      decide
  · intro env w rest beg
    refine ⟨stepT w.blockOffset rest.length beg, (addStep env w rest beg).1, ?_⟩
    rw [(step_char env w rest beg).2.2, pad_blockOffset]
    rfl

/-- C1 witness: the scenario at the all-zero 70000-byte payload. -/
theorem claimC1_witness :
    (List.replicate 70000 (0 : Nat)).length = 70000 ∧
      ((addRecord envOk (Writer.fresh ⟨0, 0, []⟩) (List.replicate 70000 0)).1
          = Status.ok ∧
        ((addRecord envOk (Writer.fresh ⟨0, 0, []⟩)
            (List.replicate 70000 0)).2.emitted).map (fun x => (x.rt, x.len))
          = [(RecordType.first, 32761), (RecordType.middle, 32761),
              (RecordType.last, 4478)] ∧
        (addRecord envOk (Writer.fresh ⟨0, 0, []⟩)
            (List.replicate 70000 0)).2.blockOffset = 4485) :=
  ⟨by rw [List.length_replicate],
    claimC1.1 ⟨0, 0, []⟩ (List.replicate 70000 0) (by rw [List.length_replicate])⟩

/-- C5: when fewer than 7 bytes remain in the block
(`block_offset ∈ [kBlockSize-6, kBlockSize-1]`), the writer appends
exactly that many zero bytes to the sink, resets the cursor to 0, and the
next chunk starts at offset 0 of the fresh block — in any iteration,
including mid-record ones (`beg` arbitrary). -/
theorem claimC5 (env : Env) (w : Writer)
    (h1 : kBlockSize - 6 ≤ w.blockOffset) (h2 : w.blockOffset ≤ kBlockSize - 1) :
    (padToNewBlock env w).blockOffset = 0 ∧
      (padToNewBlock env w).file.events
        = w.file.events ++ [Event.append (List.replicate (kBlockSize - w.blockOffset) 0)
            (env.appendRes w.file.nAppend)] ∧
      ∀ rest beg, (addStep env w rest beg).2.1.blockOffset
        = kHeaderSize + min rest.length (kBlockSize - kHeaderSize) := by
  have hin : (kBlockSize : Int) - (w.blockOffset : Int) < (kHeaderSize : Int) := by
    simp only [kBlockSize, kHeaderSize] at *
    omega
  have hpos : (0 : Int) < (kBlockSize : Int) - (w.blockOffset : Int) := by
    simp only [kBlockSize] at *
    omega
  have hp0 : padOffset w.blockOffset = 0 := by
    simp only [padOffset]
    rw [if_pos hin]
  refine ⟨?_, ?_, ?_⟩
  · rw [pad_blockOffset, hp0]
  · have htn : ((kBlockSize : Int) - (w.blockOffset : Int)).toNat
        = kBlockSize - w.blockOffset := by
      simp only [kBlockSize] at *
      omega
    simp only [padToNewBlock]
    rw [if_pos hin, if_pos hpos]
    simp only [FileState.doAppend, htn]
  · intro rest beg
    rw [(step_char env w rest beg).1]
    simp only [stepLen, stepAvail, hp0]
    omega

/-- C5 witness at `block_offset = 32765` (3 bytes of padding). -/
theorem claimC5_witness :
    kBlockSize - 6 ≤ (⟨⟨0, 0, []⟩, 32765, true, []⟩ : Writer).blockOffset ∧
      (⟨⟨0, 0, []⟩, 32765, true, []⟩ : Writer).blockOffset ≤ kBlockSize - 1 ∧
      ((padToNewBlock envOk ⟨⟨0, 0, []⟩, 32765, true, []⟩).blockOffset = 0 ∧
        (padToNewBlock envOk ⟨⟨0, 0, []⟩, 32765, true, []⟩).file.events
          = (⟨⟨0, 0, []⟩, 32765, true, []⟩ : Writer).file.events
            ++ [Event.append (List.replicate
                (kBlockSize - (⟨⟨0, 0, []⟩, 32765, true, []⟩ : Writer).blockOffset) 0)
              (envOk.appendRes (⟨⟨0, 0, []⟩, 32765, true, []⟩ : Writer).file.nAppend)] ∧
        ∀ rest beg,
          (addStep envOk ⟨⟨0, 0, []⟩, 32765, true, []⟩ rest beg).2.1.blockOffset
            = kHeaderSize + min rest.length (kBlockSize - kHeaderSize)) :=
  ⟨by decide, by decide,
    claimC5 envOk ⟨⟨0, 0, []⟩, 32765, true, []⟩ (by decide) (by decide)⟩

/-- Sink oracle whose very first append call (the padding append in the
scenario below) fails with error code 1; all later calls succeed. -/
def envPadFail : Env :=
  ⟨fun n => if n = 0 then Status.ioError 1 else Status.ok, fun _ => Status.ok⟩

/-- C9: the status of the trailer-padding append is discarded: for every
sink behaviour the cursor still resets to 0 and the padding call leaves no
trace in the writer's control state; concretely, with the padding append
failing, `AddRecord` still returns OK, the record is still emitted at the
fresh block (`block_offset = 8` after one 1-byte `Full` chunk), and the
trace shows the failed padding append. -/
theorem claimC9 :
    (∀ (env : Env) (w : Writer),
      (kBlockSize : Int) - (w.blockOffset : Int) < (kHeaderSize : Int) →
      0 < (kBlockSize : Int) - (w.blockOffset : Int) →
      (padToNewBlock env w).blockOffset = 0 ∧
        (padToNewBlock env w).file.nAppend = w.file.nAppend + 1 ∧
        (padToNewBlock env w).emitted = w.emitted) ∧
      ((addRecord envPadFail ⟨⟨0, 0, []⟩, 32765, true, []⟩ [42]).1 = Status.ok ∧
        (addRecord envPadFail ⟨⟨0, 0, []⟩, 32765, true, []⟩ [42]).2.blockOffset
          = kHeaderSize + 1 ∧
        ((addRecord envPadFail ⟨⟨0, 0, []⟩, 32765, true, []⟩ [42]).2.file.events).take 1
          = [Event.append [0, 0, 0] (Status.ioError 1)]) := by
  constructor
  · intro env w hin hpos
    refine ⟨?_, ?_, pad_emitted env w⟩
    · rw [pad_blockOffset]
      simp only [padOffset]
      rw [if_pos hin]
    · simp only [padToNewBlock]
      rw [if_pos hin, if_pos hpos]
      simp only [FileState.doAppend]
  · have hstop : ¬((addStep envPadFail ⟨⟨0, 0, []⟩, 32765, true, []⟩ [42] true).1.isOk
        = true ∧
        (addStep envPadFail ⟨⟨0, 0, []⟩, 32765, true, []⟩ [42] true).2.2 ≠ []) := by
      decide
    refine ⟨?_, ?_, ?_⟩ <;>
      · simp only [addRecord]
        rw [loop_stop hstop]
        decide

/-- C9 witness for the quantified padding clause, at the same writer. -/
theorem claimC9_witness :
    ((kBlockSize : Int) - ((⟨⟨0, 0, []⟩, 32765, true, []⟩ : Writer).blockOffset : Int)
        < (kHeaderSize : Int)) ∧
      (0 < (kBlockSize : Int)
        - ((⟨⟨0, 0, []⟩, 32765, true, []⟩ : Writer).blockOffset : Int)) ∧
      ((padToNewBlock envPadFail ⟨⟨0, 0, []⟩, 32765, true, []⟩).blockOffset = 0 ∧
        (padToNewBlock envPadFail ⟨⟨0, 0, []⟩, 32765, true, []⟩).file.nAppend
          = (⟨⟨0, 0, []⟩, 32765, true, []⟩ : Writer).file.nAppend + 1 ∧
        (padToNewBlock envPadFail ⟨⟨0, 0, []⟩, 32765, true, []⟩).emitted
          = (⟨⟨0, 0, []⟩, 32765, true, []⟩ : Writer).emitted) :=
  ⟨by decide, by decide,
    claimC9.1 envPadFail ⟨⟨0, 0, []⟩, 32765, true, []⟩ (by decide) (by decide)⟩

end LevelDBLog
